import Mathlib

set_option maxRecDepth 8000
set_option linter.unusedVariables false

/-!
Verification of the ColorExtractor palette engine (`src/palette.py`).

The palette module is embedded shallowly:

* a decoded raster (the result of `img.convert('RGBA')` followed by `np.array`)
  is a width, a height and a row-major list of RGBA pixels with `Nat` channels
  (the data is produced by PIL as `uint8`, so channel values are below 256);
* `PIL.Image.resize` (LANCZOS resampling) and `PIL.Image.convert('P',
  palette=Image.ADAPTIVE)` are external library calls; they are passed to the
  embedded builders as explicit function parameters (`Resampler`, `Quantizer`),
  exactly at the call sites where `palette.py` invokes them;
* `np.unique(..., axis=0, return_counts=True)` returns the distinct rows in
  ascending lexicographic order together with their multiplicities; it is
  embedded as a stable insertion sort followed by run-length grouping;
* Python's stable `list.sort(key=...)` is embedded as `List.insertionSort`
  with the preorder induced by the key (Mathlib's `insertionSort` is stable);
* float arithmetic appears only in the unique-ratio test (`0.05`), in HSV /
  luminance sort keys and in the resample-size computation; ratios and keys are
  modelled with exact rationals (the discrete inputs keep every comparison far
  from the float rounding error), and the resample size only feeds the opaque
  `Resampler` parameter;
* a method that assigns `self.colors` takes the palette and returns the new
  one; `from_image_max`, which can raise `ValueError('There are too many
  colors to display!')`, returns the palette state at exit together with an
  optional error.
-/

/-- RGBA pixel with 8-bit channels, as produced by `img.convert('RGBA')`. -/
structure Pixel where
  r : Nat
  g : Nat
  b : Nat
  a : Nat
deriving DecidableEq, Repr

/-- In-memory raster: width, height and row-major RGBA data (a decoded PIL image). -/
structure Image where
  w : Nat
  h : Nat
  data : List Pixel
deriving DecidableEq, Repr

/-- An RGB triple. -/
abbrev RGB := Nat × Nat × Nat

/-- One palette slot: the dict with keys `rgb`, `hex`, `count`, `enabled`
(`palette.py` line 26). -/
structure ColorEntry where
  rgb : RGB
  hex : String
  count : Nat
  enabled : Bool
deriving DecidableEq, Repr

/-- The palette container: an ordered list of entries (`Palette.colors`). -/
structure Palette where
  colors : List ColorEntry
deriving DecidableEq, Repr

/-- Uppercase hex digit for a value below 16 (as in Python `'{:02X}'` formatting). -/
def hexDigitChar (d : Nat) : Char :=
  if d < 10 then Char.ofNat ('0'.toNat + d) else Char.ofNat ('A'.toNat + d - 10)

/-- The two hex characters of one 8-bit channel value, zero-padded (`'{:02X}'`). -/
def byteHexChars (v : Nat) : List Char :=
  [hexDigitChar (v / 16), hexDigitChar (v % 16)]

/-- `rgb_to_hex` (`palette.py` lines 8-9): `'#RRGGBB'`, uppercase, zero-padded.
Channels are 8-bit values (they come from `uint8` image data or the 0..255
color picker), for which `'{:02X}'.format` produces exactly the two digits
modelled here. -/
def rgb_to_hex (c : RGB) : String :=
  ⟨'#' :: (byteHexChars c.1 ++ byteHexChars c.2.1 ++ byteHexChars c.2.2)⟩

/-- ASCII whitespace recognised by Python's `str.strip()`. -/
def isPyWS (c : Char) : Bool :=
  c == ' ' || c == '\t' || c == '\n' || c == '\r' || c == '\x0b' || c == '\x0c'

/-- Python `s.strip()`: remove leading and trailing whitespace. -/
def pyStrip (cs : List Char) : List Char :=
  ((cs.dropWhile isPyWS).reverse.dropWhile isPyWS).reverse

/-- Python `s.lstrip('#')`: remove every leading `'#'`. -/
def stripHashes (cs : List Char) : List Char :=
  cs.dropWhile (fun c => c == '#')

/-- Value of one hex digit, either case, as accepted by Python's `int(s, 16)`. -/
def hexDigitVal (c : Char) : Option Nat :=
  if '0' ≤ c ∧ c ≤ '9' then some (c.toNat - '0'.toNat)
  else if 'a' ≤ c ∧ c ≤ 'f' then some (c.toNat - 'a'.toNat + 10)
  else if 'A' ≤ c ∧ c ≤ 'F' then some (c.toNat - 'A'.toNat + 10)
  else none

def parseHexAux : List Char → Nat → Option Nat
  | [], acc => some acc
  | c :: cs, acc =>
    match hexDigitVal c with
    | some d => parseHexAux cs (16 * acc + d)
    | none => none

/-- Model of Python `int(s, 16)` on a slice: fails on the empty string and on
any non-hex-digit character.  (The builtin additionally tolerates a sign,
surrounding whitespace and embedded underscores inside the slice; none of
those affect any claim settled here: the slices of canonical inputs are pure
hex digits, and every rejection argument below hinges on an empty slice,
which the builtin also rejects.) -/
def parseHexPy (cs : List Char) : Option Nat :=
  match cs with
  | [] => none
  | _ => parseHexAux cs 0

/-- The body of `hex_to_rgb` on the character list of its argument. -/
def hexFromChars (cs0 : List Char) : Option RGB :=
  let cs := stripHashes (pyStrip cs0)
  match parseHexPy ((cs.drop 0).take 2), parseHexPy ((cs.drop 2).take 2),
      parseHexPy ((cs.drop 4).take 2) with
  | some r, some g, some b => some (r, g, b)
  | _, _, _ => none

/-- `hex_to_rgb` (`palette.py` lines 12-14): strip surrounding whitespace,
strip leading `'#'`s, then parse the character slices `[0:2]`, `[2:4]`,
`[4:6]` as hex.  `none` models the `ValueError` raised by `int`. -/
def hex_to_rgb (s : String) : Option RGB :=
  hexFromChars s.data

/-- `relative_luminance` (`palette.py` lines 17-19), with the float arithmetic
carried out exactly in `ℚ`. -/
def relative_luminance (c : RGB) : ℚ :=
  0.2126 * ((c.1 : ℚ) / 255) + 0.7152 * ((c.2.1 : ℚ) / 255) + 0.0722 * ((c.2.2 : ℚ) / 255)

/-- `colorsys.rgb_to_hsv` (used by `Palette.sort`), with the float arithmetic
carried out exactly in `ℚ`; `% 1.0` on a float is `x - floor x`. -/
def rgb_to_hsv (r g b : ℚ) : ℚ × ℚ × ℚ :=
  let maxc := max r (max g b)
  let minc := min r (min g b)
  let rangec := maxc - minc
  let v := maxc
  if minc = maxc then (0, 0, v)
  else
    let s := rangec / maxc
    let rc := (maxc - r) / rangec
    let gc := (maxc - g) / rangec
    let bc := (maxc - b) / rangec
    let h := if r = maxc then bc - gc else if g = maxc then rc - bc else gc - rc
    (h / 6 - (⌊h / 6⌋ : ℚ), s, v)

/-- The `hsv` helper inside `Palette.sort`: normalise the channels to `[0,1]`
and apply `colorsys.rgb_to_hsv`. -/
def entryHSV (c : RGB) : ℚ × ℚ × ℚ :=
  rgb_to_hsv ((c.1 : ℚ) / 255) ((c.2.1 : ℚ) / 255) ((c.2.2 : ℚ) / 255)

/-- Ascending lexicographic order on RGB rows: the order in which
`np.unique(..., axis=0)` lists the distinct rows. -/
def rgbLex (c d : RGB) : Prop :=
  c.1 < d.1 ∨ (c.1 = d.1 ∧ (c.2.1 < d.2.1 ∨ (c.2.1 = d.2.1 ∧ c.2.2 ≤ d.2.2)))

instance : DecidableRel rgbLex := fun c d => by unfold rgbLex; infer_instance

/-- Run-length grouping of adjacent equal elements; on a sorted list this
yields each distinct value once, with its multiplicity. -/
def countRuns {α : Type} [DecidableEq α] : List α → List (α × Nat)
  | [] => []
  | x :: xs =>
    match countRuns xs with
    | [] => [(x, 1)]
    | (y, n) :: rest => if x = y then (x, n + 1) :: rest else (x, 1) :: (y, n) :: rest

/-- `np.unique(pixels, axis=0, return_counts=True)`: distinct RGB rows in
ascending lexicographic order, with multiplicities. -/
def uniqueCounts (l : List RGB) : List (RGB × Nat) :=
  countRuns (l.insertionSort rgbLex)

/-- The opaque pixels (`alpha > 0`) of a raster, in row-major order, as RGB
triples: `arr[:, :, :3][alpha > 0]`. -/
def opaqueRGB (img : Image) : List RGB :=
  (img.data.filter (fun px => 0 < px.a)).map (fun px => (px.r, px.g, px.b))

/-- `int(mask.sum())`: the number of opaque pixels at full resolution. -/
def totalOpaque (img : Image) : Nat :=
  (opaqueRGB img).length

/-- The exact number of distinct opaque colors at full resolution (spec-side
notion of `k`, independent of the builder's machinery). -/
def distinctColorCount (img : Image) : Nat :=
  (opaqueRGB img).dedup.length

/-- The preorder of Python's stable sort with key `lambda x: (-x['count'],)`:
ascending in the negated count. -/
def countDesc (a b : ColorEntry) : Prop :=
  (-(a.count : ℤ)) ≤ (-(b.count : ℤ))

instance : DecidableRel countDesc := fun a b => by unfold countDesc; infer_instance

/-- A builder entry: `{'rgb': rgb, 'hex': rgb_to_hex(rgb), 'count': c, 'enabled': True}`. -/
def mkMaxEntry (vc : RGB × Nat) : ColorEntry :=
  ⟨vc.1, rgb_to_hex vc.1, vc.2, true⟩

/-- Thresholds (class attributes of `Palette`, `palette.py` lines 28, 75-78). -/
def MAX_QUANT_DIM : Nat := 800
def MAX_SAMPLE_DIM : Nat := 1200
def FULL_SCAN_PIXEL_LIMIT : Nat := 6000000
def UNIQUE_THRESHOLD : Nat := 2048
def UNIQUE_RATIO_THRESHOLD : ℚ := 0.05

/-- External resampler: `im.resize((w, h), Image.LANCZOS)`.  PIL's resampling
is floating-point library code outside this repository; the builders receive
it as an opaque function from target size and source raster to sample raster. -/
def Resampler := Nat → Nat → Image → Image

/-- `(max(1, int(w*scale)), max(1, int(h*scale)))` with
`scale = max_dim / max(w, h)`; the float product truncates to the same value
as this `Nat` floor division for all image sizes of interest, and the result
only feeds the `Resampler` parameter. -/
def sampleSize (w h maxDim : Nat) : Nat × Nat :=
  (max 1 (w * maxDim / max w h), max 1 (h * maxDim / max w h))

/-- The sample the estimator and the maximal builder work on: the LANCZOS
downsample when the larger dimension exceeds the cap, the full-resolution
pixels otherwise (both restricted to opaque pixels). -/
def sampleRGB (rs : Resampler) (img : Image) (msd : Nat) : List RGB :=
  if max img.w img.h > msd then
    opaqueRGB (rs (sampleSize img.w img.h msd).1 (sampleSize img.w img.h msd).2 img)
  else opaqueRGB img

/-- `Palette.estimate_unique_stats` (`palette.py` lines 80-109).  The method
assigns nothing on `self`; it returns the stats triple together with the
(unchanged) palette state. -/
def Palette.estimate_unique_stats (rs : Resampler) (p : Palette) (img : Image)
    (max_sample_dim : Option Nat) : (Nat × Nat × Nat) × Palette :=
  let msd := max_sample_dim.getD MAX_SAMPLE_DIM
  let total_pixels := totalOpaque img
  if total_pixels = 0 then ((0, 0, 0), p)
  else
    let rgb_sample := sampleRGB rs img msd
    if rgb_sample = [] then ((0, 0, total_pixels), p)
    else (((uniqueCounts rgb_sample).length, rgb_sample.length, total_pixels), p)

/-- The `ValueError('There are too many colors to display!')` of
`from_image_max`. -/
inductive MaxError where
  | tooManyColors
deriving DecidableEq, Repr

/-- The entries installed by the exact full-resolution path of
`from_image_max`: one entry per distinct opaque color, exact counts, stably
sorted by descending count. -/
def fullScanEntries (img : Image) : List ColorEntry :=
  ((uniqueCounts (opaqueRGB img)).map mkMaxEntry).insertionSort countDesc

/-- The entries installed by the approximate sample-only fallback path. -/
def sampleScanEntries (sample : List RGB) : List ColorEntry :=
  ((uniqueCounts sample).map mkMaxEntry).insertionSort countDesc

/-- The full-scan decision (`palette.py` lines 157-162): forced, or
(sample unique count within threshold OR sample unique ratio within
threshold) AND total opaque pixels within the full-scan limit.  The ratio
`sample_unique_count / len(sample_pixels)` is written with `Rat.divInt`,
which builds the same rational as the cast division
(`divInt_natCast_div` below) while staying kernel-evaluable. -/
def maxGate (force_full_scan : Bool) (sample : List RGB) (total_pixels ut fspl : Nat)
    (urt : ℚ) : Prop :=
  force_full_scan = true ∨
    (((uniqueCounts sample).length ≤ ut ∨
        Rat.divInt ((uniqueCounts sample).length : Int) (sample.length : Int) ≤ urt) ∧
      total_pixels ≤ fspl)

instance (f : Bool) (s : List RGB) (t u fl : Nat) (r : ℚ) :
    Decidable (maxGate f s t u fl r) := by unfold maxGate; infer_instance

/-- `Palette.from_image_max` (`palette.py` lines 111-184).  Returns the
palette state at method exit together with the optional raised error; on the
raise (line 168) no assignment to `self.colors` has happened, so the input
state is returned. -/
def Palette.from_image_max (rs : Resampler) (p : Palette) (img : Image)
    (force_full_scan : Bool)
    (max_sample_dim full_scan_pixel_limit unique_threshold : Option Nat)
    (unique_ratio_threshold : Option ℚ) (max_unique_error : Option Nat) :
    Palette × Option MaxError :=
  let msd := max_sample_dim.getD MAX_SAMPLE_DIM
  let fspl := full_scan_pixel_limit.getD FULL_SCAN_PIXEL_LIMIT
  let ut := unique_threshold.getD UNIQUE_THRESHOLD
  let urt := unique_ratio_threshold.getD UNIQUE_RATIO_THRESHOLD
  let total_pixels := totalOpaque img
  if total_pixels = 0 then (⟨[]⟩, none)
  else
    let rgb_sample := sampleRGB rs img msd
    if rgb_sample = [] then (⟨[]⟩, none)
    else
      if maxGate force_full_scan rgb_sample total_pixels ut fspl urt then
        match max_unique_error with
        | some cap =>
          if (uniqueCounts (opaqueRGB img)).length > cap then (p, some MaxError.tooManyColors)
          else (⟨fullScanEntries img⟩, none)
        | none => (⟨fullScanEntries img⟩, none)
      else (⟨sampleScanEntries rgb_sample⟩, none)

/-- Result of the external `tmp.convert('P', palette=Image.ADAPTIVE, colors=n)`
call: the flat R,G,B palette list (`q.getpalette() or []`) and the per-pixel
palette indices. -/
structure QuantImage where
  palette : List Nat
  pixels : List Nat

/-- External adaptive quantizer (PIL median-cut); opaque to this development. -/
def Quantizer := List RGB → Nat → QuantImage

/-- `q.getcolors(maxcolors=65536)` on a palette image: PIL computes a
histogram, so the `(count, index)` pairs come in ascending index order;
`None` (more than `maxcolors` distinct values) is modelled as `[]`, matching
the `or []` in the source. -/
def getcolorsP (pixels : List Nat) : List (Nat × Nat) :=
  let u := countRuns (pixels.insertionSort (· ≤ ·))
  if u.length > 65536 then [] else u.map (fun vc => (vc.2, vc.1))

/-- `Palette.from_image_quant` (`palette.py` lines 30-72).  `palette[idx*3]`
is raw Python indexing; it is modelled with `getD` because PIL guarantees the
palette covers every index the quantized image uses. -/
def Palette.from_image_quant (quant : Quantizer) (rs : Resampler) (p : Palette)
    (img : Image) (n : Int) (max_dim : Nat) : Palette :=
  if n ≤ 0 then ⟨[]⟩
  else
    let rgb_pixels := sampleRGB rs img max_dim
    if rgb_pixels = [] then ⟨[]⟩
    else
      let q := quant rgb_pixels n.toNat
      let counts := getcolorsP q.pixels
      let mapping := counts.map (fun ci =>
        let rgb : RGB := (q.palette.getD (ci.2 * 3) 0, q.palette.getD (ci.2 * 3 + 1) 0,
          q.palette.getD (ci.2 * 3 + 2) 0)
        ⟨rgb, rgb_to_hex rgb, ci.1, true⟩)
      ⟨mapping.insertionSort countDesc⟩

/-- The sort key comparison of `Palette.sort` (`palette.py` lines 186-203):
Python's `list.sort(key=k)` is a stable sort in the preorder
`a ≼ b ↔ k a ≤ k b`; the final `else` branch has the constant key `(0,)`. -/
def sortLe (mode : String) (a b : ColorEntry) : Bool :=
  if mode = "frequency" then decide ((-(a.count : ℤ)) ≤ (-(b.count : ℤ)))
  else if mode = "hue" then decide ((entryHSV a.rgb).1 ≤ (entryHSV b.rgb).1)
  else if mode = "saturation" then decide ((entryHSV a.rgb).2.1 ≤ (entryHSV b.rgb).2.1)
  else if mode = "value" then decide ((entryHSV a.rgb).2.2 ≤ (entryHSV b.rgb).2.2)
  else if mode = "luminance" then decide (relative_luminance a.rgb ≤ relative_luminance b.rgb)
  else if mode = "hex" then decide (a.hex ≤ b.hex)
  else true

/-- `sortLe` as a relation, for `List.insertionSort`. -/
def sortRel (mode : String) (a b : ColorEntry) : Prop :=
  sortLe mode a b = true

instance (mode : String) : DecidableRel (sortRel mode) := fun a b => by
  unfold sortRel; infer_instance

/-- `Palette.sort` (`palette.py` lines 186-213): with `disabled_to_top`, the
disabled entries are filtered out first, each partition is sorted stably by
the key, and the partitions are concatenated disabled-first. -/
def Palette.sort (p : Palette) (mode : String) (disabled_to_top : Bool) : Palette :=
  if disabled_to_top then
    let disabled := p.colors.filter (fun c => !c.enabled)
    let enabled := p.colors.filter (fun c => c.enabled)
    ⟨disabled.insertionSort (sortRel mode) ++ enabled.insertionSort (sortRel mode)⟩
  else ⟨p.colors.insertionSort (sortRel mode)⟩

/-- `Palette.toggle_enabled` (`palette.py` lines 215-217): in-bounds check,
then flip the flag in place; out-of-bounds indices are a silent no-op. -/
def Palette.toggle_enabled (p : Palette) (index : Int) : Palette :=
  if 0 ≤ index ∧ index < (p.colors.length : Int) then
    match p.colors.get? index.toNat with
    | some e => ⟨p.colors.set index.toNat { e with enabled := !e.enabled }⟩
    | none => p
  else p

/-- `Palette.add_color` (`palette.py` lines 219-221). -/
def Palette.add_color (p : Palette) (rgb : RGB) : Palette :=
  ⟨p.colors ++ [⟨rgb, rgb_to_hex rgb, 0, true⟩]⟩

/-- `Palette.remove_color` (`palette.py` lines 223-225). -/
def Palette.remove_color (p : Palette) (index : Int) : Palette :=
  if 0 ≤ index ∧ index < (p.colors.length : Int) then ⟨p.colors.eraseIdx index.toNat⟩
  else p

/-- `Palette.hex_list` (`palette.py` lines 227-229). -/
def Palette.hex_list (p : Palette) (enabled_only : Bool) : List String :=
  (p.colors.filter (fun c => c.enabled || !enabled_only)).map (fun c => c.hex)

instance : IsTotal RGB rgbLex := ⟨by intro a b; unfold rgbLex; omega⟩
instance : IsTrans RGB rgbLex := ⟨by intro a b c; unfold rgbLex; omega⟩

instance : IsTotal ColorEntry countDesc := ⟨fun a b => Int.le_total _ _⟩
instance : IsTrans ColorEntry countDesc :=
  ⟨fun a b c h1 h2 => le_trans (α := ℤ) h1 h2⟩

/-- PIL's `resize` maps a fully transparent raster to a fully transparent
raster (each output alpha is an average of zero alphas); the contract the
external resampler satisfies. -/
def PreservesTransparent (rs : Resampler) : Prop :=
  ∀ w h img, (∀ px ∈ img.data, px.a = 0) → ∀ px ∈ (rs w h img).data, px.a = 0

/-- The invariant of one entry: its `hex` is the canonical rendering of its
`rgb`. -/
def EntryWf (e : ColorEntry) : Prop := e.hex = rgb_to_hex e.rgb

/-- The container invariant. -/
def PaletteWf (p : Palette) : Prop := ∀ e ∈ p.colors, EntryWf e

/-- Identity resampler, used to instantiate theorems at concrete inputs. -/
def rsId : Resampler := fun _ _ img => img

/-- A resampler that returns a fully transparent 1×1 raster. -/
def rsBlank : Resampler := fun _ _ _ => ⟨1, 1, [⟨0, 0, 0, 0⟩]⟩

/-- A trivial quantizer obeying the index contract, for witnesses. -/
def quantW : Quantizer := fun px k => ⟨[0, 0, 0], if k = 0 then [] else px.map (fun _ => 0)⟩

/-- A 2×1 image with one red and one green opaque pixel. -/
def imgW : Image := ⟨2, 1, [⟨255, 0, 0, 255⟩, ⟨0, 255, 0, 255⟩]⟩

/-- A 2×1 image whose two pixels are opaque red. -/
def imgTwoRed : Image := ⟨2, 1, [⟨200, 0, 0, 255⟩, ⟨200, 0, 0, 255⟩]⟩

/-- A 1×1 image with one fully transparent pixel. -/
def imgClear : Image := ⟨1, 1, [⟨5, 6, 7, 0⟩]⟩

/-- `Rat.divInt` on cast naturals is the cast division: the gate's ratio is
exactly `sample_unique_count / len(sample_pixels)` in `ℚ`. -/
theorem divInt_natCast_div (a b : Nat) :
    Rat.divInt (a : Int) (b : Int) = (a : ℚ) / (b : ℚ) := by
  rw [Rat.divInt_eq_div]
  push_cast
  rfl

/-! ### Facts about run-length grouping (`countRuns`) -/

theorem countRuns_eq_nil_iff {α : Type} [DecidableEq α] {l : List α} :
    countRuns l = [] ↔ l = [] := by
  cases l with
  | nil => simp [countRuns]
  | cons x xs =>
    simp only [countRuns]
    cases h : countRuns xs with
    | nil => simp
    | cons q rest =>
      obtain ⟨y, n⟩ := q
      by_cases hxy : x = y <;> simp [hxy]

theorem countRuns_sum {α : Type} [DecidableEq α] (l : List α) :
    ((countRuns l).map Prod.snd).sum = l.length := by
  induction l with
  | nil => simp [countRuns]
  | cons x xs ih =>
    simp only [countRuns]
    cases h : countRuns xs with
    | nil =>
      rw [h] at ih
      simp at ih
      simp [← ih]
    | cons q rest =>
      obtain ⟨y, n⟩ := q
      rw [h] at ih
      simp at ih
      by_cases hxy : x = y <;> simp [hxy] <;> omega

theorem countRuns_head {α : Type} [DecidableEq α] (x : α) (xs : List α) :
    ∃ n rest, countRuns (x :: xs) = (x, n) :: rest := by
  simp only [countRuns]
  cases h : countRuns xs with
  | nil => exact ⟨1, [], rfl⟩
  | cons q rest =>
    obtain ⟨y, n⟩ := q
    by_cases hxy : x = y
    · subst hxy
      simp only [if_pos rfl]
      exact ⟨n + 1, rest, rfl⟩
    · simp only [if_neg hxy]
      exact ⟨1, (y, n) :: rest, rfl⟩

theorem mem_countRuns_fst {α : Type} [DecidableEq α] {l : List α} {a : α} :
    a ∈ (countRuns l).map Prod.fst ↔ a ∈ l := by
  induction l with
  | nil => simp [countRuns]
  | cons x xs ih =>
    simp only [countRuns]
    cases h : countRuns xs with
    | nil =>
      have hxs : xs = [] := countRuns_eq_nil_iff.mp h
      subst hxs
      simp
    | cons q rest =>
      obtain ⟨y, n⟩ := q
      rw [h] at ih
      simp only [List.map_cons, List.mem_cons] at ih
      by_cases hxy : x = y
      · simp only [hxy, eq_self_iff_true, if_true, List.map_cons, List.mem_cons]
        constructor
        · intro hl
          exact Or.inr (ih.mp hl)
        · rintro (rfl | hm)
          · exact Or.inl rfl
          · exact ih.mpr hm
      · simp only [if_neg hxy, List.map_cons, List.mem_cons]
        exact or_congr_right ih

theorem countRuns_keys_nodup {α : Type} [DecidableEq α] {le : α → α → Prop}
    (hanti : ∀ a b, le a b → le b a → a = b) :
    ∀ {l : List α}, l.Pairwise le → ((countRuns l).map Prod.fst).Nodup := by
  intro l
  induction l with
  | nil => intro _; simp [countRuns]
  | cons x xs ih =>
    intro hp
    rw [List.pairwise_cons] at hp
    obtain ⟨hx, hxs⟩ := hp
    simp only [countRuns]
    cases h : countRuns xs with
    | nil => simp
    | cons q rest =>
      obtain ⟨y, n⟩ := q
      have hnodup : ((countRuns xs).map Prod.fst).Nodup := ih hxs
      rw [h] at hnodup
      -- xs is nonempty with head y
      have hxsne : xs ≠ [] := by
        intro hn; rw [hn] at h; simp [countRuns] at h
      obtain ⟨z, zs, hzs⟩ := List.exists_cons_of_ne_nil hxsne
      have hzy : z = y := by
        obtain ⟨m, r2, hr⟩ := countRuns_head z zs
        rw [hzs, hr] at h
        simp only [List.cons.injEq, Prod.mk.injEq] at h
        exact h.1.1
      by_cases hxy : x = y
      · subst hxy
        simpa only [if_pos rfl, List.map_cons] using hnodup
      · simp only [if_neg hxy, List.map_cons]
        rw [List.nodup_cons]
        refine ⟨?_, hnodup⟩
        intro hmem
        -- x would be a key of countRuns xs, hence a member of xs
        have hxmem : x ∈ xs := by
          have hx2 : x ∈ (countRuns xs).map Prod.fst := by
            rw [h, List.map_cons]; exact hmem
          exact mem_countRuns_fst.mp hx2
        -- but x ≼ y (x before head of xs) and y ≼ x (head of xs before x) force x = y
        have hymem : y ∈ xs := by
          rw [hzs, ← hzy]; exact List.mem_cons_self _ _
        have hxy1 : le x y := hx y hymem
        have hyx : le y x := by
          rw [hzs] at hxmem hxs
          rcases List.mem_cons.mp hxmem with hxz | hmem2
          · exact absurd (hxz.trans hzy) hxy
          · rw [List.pairwise_cons] at hxs
            exact hzy ▸ hxs.1 x hmem2
        exact hxy (hanti x y hxy1 hyx)

/-! ### Stability of `List.insertionSort` with respect to `filter` -/

theorem filter_orderedInsert {α : Type} (r : α → α → Prop) [DecidableRel r]
    (q : α → Bool) (a : α) :
    ∀ l : List α, (∀ b ∈ l, q b = true → q a = true → r a b) →
      (l.orderedInsert r a).filter q =
        if q a then a :: l.filter q else l.filter q := by
  intro l
  induction l with
  | nil =>
    intro _
    simp only [List.orderedInsert_nil, List.filter]
    split_ifs with h <;> simp [h]
  | cons b l ih =>
    intro h
    simp only [List.orderedInsert]
    by_cases hab : r a b
    · rw [if_pos hab]
      by_cases hqa : q a = true
      · simp [List.filter_cons, hqa]
      · simp [List.filter_cons, hqa]
    · rw [if_neg hab]
      have hrec := ih (fun c hc => h c (List.mem_cons_of_mem _ hc))
      by_cases hqb : q b = true
      · by_cases hqa : q a = true
        · exact absurd (h b (List.mem_cons_self _ _) hqb hqa) hab
        · simp [List.filter_cons, hqb, hqa, hrec]
      · simp [List.filter_cons, hqb, hrec]

theorem filter_insertionSort {α : Type} (r : α → α → Prop) [DecidableRel r]
    (q : α → Bool) (hq : ∀ a b, q a = true → q b = true → r a b) :
    ∀ l : List α, (l.insertionSort r).filter q = l.filter q := by
  intro l
  induction l with
  | nil => rfl
  | cons x xs ih =>
    simp only [List.insertionSort]
    rw [filter_orderedInsert r q x _ (fun b _ hb ha => hq x b ha hb)]
    by_cases hqx : q x = true
    · simp [List.filter_cons, hqx, ih]
    · simp [List.filter_cons, hqx, ih]

/-! ### Order facts for the relations in use -/

theorem rgbLex_total : ∀ c d : RGB, rgbLex c d ∨ rgbLex d c := by
  intro c d; unfold rgbLex; omega

theorem rgbLex_trans : ∀ c d e : RGB, rgbLex c d → rgbLex d e → rgbLex c e := by
  intro c d e; unfold rgbLex; omega

theorem rgbLex_antisymm : ∀ c d : RGB, rgbLex c d → rgbLex d c → c = d := by
  rintro ⟨a, b, c⟩ ⟨d, e, f⟩ h1 h2
  unfold rgbLex at h1 h2
  simp only [Prod.mk.injEq]
  simp at h1 h2
  omega

/-! ### The distinct-count bridge: `uniqueCounts` against `dedup` -/

theorem uniqueCounts_sum (l : List RGB) :
    ((uniqueCounts l).map Prod.snd).sum = l.length := by
  unfold uniqueCounts
  rw [countRuns_sum, List.length_insertionSort]

theorem uniqueCounts_keys_nodup (l : List RGB) :
    ((uniqueCounts l).map Prod.fst).Nodup :=
  countRuns_keys_nodup rgbLex_antisymm (List.sorted_insertionSort rgbLex l)

theorem mem_uniqueCounts_fst {l : List RGB} {a : RGB} :
    a ∈ (uniqueCounts l).map Prod.fst ↔ a ∈ l := by
  unfold uniqueCounts
  rw [mem_countRuns_fst]
  exact (List.perm_insertionSort rgbLex l).mem_iff

theorem uniqueCounts_length (l : List RGB) :
    (uniqueCounts l).length = l.dedup.length := by
  classical
  have h1 : (uniqueCounts l).length = ((uniqueCounts l).map Prod.fst).length :=
    (List.length_map _ _).symm
  have h2 : ((uniqueCounts l).map Prod.fst).toFinset = l.toFinset := by
    ext a
    simp only [List.mem_toFinset]
    exact mem_uniqueCounts_fst
  calc (uniqueCounts l).length
      = ((uniqueCounts l).map Prod.fst).length := h1
    _ = ((uniqueCounts l).map Prod.fst).toFinset.card :=
        (List.toFinset_card_of_nodup (uniqueCounts_keys_nodup l)).symm
    _ = l.toFinset.card := by rw [h2]
    _ = l.dedup.length := List.card_toFinset l

theorem distinctColorCount_eq (img : Image) :
    (uniqueCounts (opaqueRGB img)).length = distinctColorCount img :=
  uniqueCounts_length (opaqueRGB img)

/-! ### The hex codec: round trip, tolerance and rejection -/

theorem hexDigitChar_not_ws : ∀ d, d < 16 → isPyWS (hexDigitChar d) = false := by decide

theorem hexDigitChar_ne_hash : ∀ d, d < 16 → (hexDigitChar d == '#') = false := by decide

theorem hexDigitVal_hexDigitChar : ∀ d, d < 16 → hexDigitVal (hexDigitChar d) = some d := by
  decide

/-- Parsing a zero-padded two-digit hex rendering recovers the byte value. -/
theorem parseHexPy_byte (v : Nat) (hv : v ≤ 255) :
    parseHexPy (byteHexChars v) = some v := by
  have h1 : v / 16 < 16 := by omega
  have h2 : v % 16 < 16 := by omega
  unfold byteHexChars parseHexPy
  simp only [parseHexAux, hexDigitVal_hexDigitChar _ h1, hexDigitVal_hexDigitChar _ h2]
  congr 1
  omega

/-- `str.strip()` removes exactly the surrounding whitespace when the kept
middle part has non-whitespace first and last characters. -/
theorem pyStrip_sandwich (w1 w2 mid : List Char)
    (hw1 : ∀ c ∈ w1, isPyWS c = true) (hw2 : ∀ c ∈ w2, isPyWS c = true)
    (hhead : ∀ c, mid.head? = some c → isPyWS c = false)
    (hlast : ∀ c, mid.getLast? = some c → isPyWS c = false)
    (hne : mid ≠ []) :
    pyStrip (w1 ++ mid ++ w2) = mid := by
  obtain ⟨c, cs, rfl⟩ := List.exists_cons_of_ne_nil hne
  unfold pyStrip
  rw [List.append_assoc, List.dropWhile_append_of_pos hw1]
  have hc : isPyWS c = false := hhead c rfl
  rw [List.cons_append, List.dropWhile_cons_of_neg (by simp [hc])]
  rw [← List.cons_append, List.reverse_append]
  rw [List.dropWhile_append_of_pos (fun a ha => hw2 a (List.mem_reverse.mp ha))]
  obtain ⟨d, ds, hrev⟩ : ∃ d ds, (c :: cs).reverse = d :: ds := by
    cases hr : (c :: cs).reverse with
    | nil => exact absurd (List.reverse_eq_nil_iff.mp hr) (List.cons_ne_nil c cs)
    | cons d ds => exact ⟨d, ds, rfl⟩
  have hd : isPyWS d = false := by
    apply hlast
    rw [← List.head?_reverse, hrev]
    rfl
  rw [hrev, List.dropWhile_cons_of_neg (by simp [hd]), ← hrev, List.reverse_reverse]

/-- Parsing a canonical `#RRGGBB` rendering surrounded by whitespace yields
the original channels. -/
theorem hexFromChars_canonical (w1 w2 : List Char) (r g b : Nat)
    (hr : r ≤ 255) (hg : g ≤ 255) (hb : b ≤ 255)
    (hw1 : ∀ c ∈ w1, isPyWS c = true) (hw2 : ∀ c ∈ w2, isPyWS c = true) :
    hexFromChars (w1 ++ (rgb_to_hex (r, g, b)).data ++ w2) = some (r, g, b) := by
  have hr1 : r / 16 < 16 := by omega
  have hr2 : r % 16 < 16 := by omega
  have hb2 : b % 16 < 16 := by omega
  have hdata : (rgb_to_hex (r, g, b)).data =
      '#' :: (byteHexChars r ++ byteHexChars g ++ byteHexChars b) := rfl
  rw [hdata]
  have hstrip : pyStrip (w1 ++ ('#' :: (byteHexChars r ++ byteHexChars g ++ byteHexChars b))
      ++ w2) = '#' :: (byteHexChars r ++ byteHexChars g ++ byteHexChars b) := by
    apply pyStrip_sandwich w1 w2 _ hw1 hw2
    · intro c hc
      simp only [List.head?] at hc
      cases hc
      rfl
    · intro c hc
      simp only [byteHexChars, List.cons_append, List.append_assoc] at hc
      simp only [List.getLast?] at hc
      simp [List.getLast] at hc
      cases hc
      exact hexDigitChar_not_ws _ hb2
    · simp
  have hhash : stripHashes ('#' :: (byteHexChars r ++ byteHexChars g ++ byteHexChars b)) =
      byteHexChars r ++ byteHexChars g ++ byteHexChars b := by
    unfold stripHashes
    rw [List.dropWhile_cons_of_pos (by rfl)]
    simp only [byteHexChars, List.cons_append]
    rw [List.dropWhile_cons_of_neg (by simp [hexDigitChar_ne_hash _ hr1])]
  simp only [hexFromChars]
  rw [hstrip, hhash]
  have hsl1 : (((byteHexChars r ++ byteHexChars g ++ byteHexChars b).drop 0).take 2) =
      byteHexChars r := by
    simp [byteHexChars]
  have hsl2 : (((byteHexChars r ++ byteHexChars g ++ byteHexChars b).drop 2).take 2) =
      byteHexChars g := by
    simp [byteHexChars]
  have hsl3 : (((byteHexChars r ++ byteHexChars g ++ byteHexChars b).drop 4).take 2) =
      byteHexChars b := by
    simp [byteHexChars]
  rw [hsl1, hsl2, hsl3, parseHexPy_byte r hr, parseHexPy_byte g hg, parseHexPy_byte b hb]

/-- Any input whose stripped form has fewer than five characters is rejected:
the third slice `[4:6]` is empty and `int('', 16)` raises. -/
theorem hexFromChars_short (cs0 : List Char)
    (h : (stripHashes (pyStrip cs0)).length < 5) : hexFromChars cs0 = none := by
  simp only [hexFromChars]
  have h4 : ((stripHashes (pyStrip cs0)).drop 4).take 2 = [] := by
    rw [List.drop_eq_nil_of_le (by omega)]
    rfl
  rw [h4]
  cases parseHexPy (((stripHashes (pyStrip cs0)).drop 0).take 2) <;>
    cases parseHexPy (((stripHashes (pyStrip cs0)).drop 2).take 2) <;> rfl

/-- `⟨s.data⟩ = s` for strings. -/
theorem string_mk_data (s : String) : (⟨s.data⟩ : String) = s := by
  cases s
  rfl

/-- C4: for every RGB triple with channels in `[0, 255]`,
`hex_to_rgb (rgb_to_hex rgb) = rgb`; `rgb_to_hex` produces the canonical
uppercase zero-padded `#RRGGBB` string, and parsing it recovers the triple. -/
theorem hex_roundtrip (r g b : Nat) (hr : r ≤ 255) (hg : g ≤ 255) (hb : b ≤ 255) :
    hex_to_rgb (rgb_to_hex (r, g, b)) = some (r, g, b) := by
  have h := hexFromChars_canonical [] [] r g b hr hg hb (by simp) (by simp)
  rw [List.nil_append, List.append_nil] at h
  rw [hex_to_rgb]
  exact h

/-- Witness for C4 at the concrete triple `(10, 20, 30)`. -/
theorem hex_roundtrip_witness :
    (10 : Nat) ≤ 255 ∧ hex_to_rgb (rgb_to_hex (10, 20, 30)) = some (10, 20, 30) :=
  ⟨by decide, hex_roundtrip 10 20 30 (by decide) (by decide) (by decide)⟩

/-- C5 (amended): `hex_to_rgb` tolerates surrounding whitespace and the
leading `'#'`, and rejects every string whose stripped form has fewer than
five characters (not six: with exactly five hex digits the slice `[4:6]`
holds a single digit, which `int(..., 16)` accepts, so such strings parse). -/
theorem hex_to_rgb_tolerant_min5 :
    (∀ (w1 w2 : List Char) (r g b : Nat), r ≤ 255 → g ≤ 255 → b ≤ 255 →
        (∀ c ∈ w1, isPyWS c = true) → (∀ c ∈ w2, isPyWS c = true) →
        hex_to_rgb ⟨w1 ++ (rgb_to_hex (r, g, b)).data ++ w2⟩ = some (r, g, b)) ∧
    (∀ s : String, (stripHashes (pyStrip s.data)).length < 5 → hex_to_rgb s = none) := by
  constructor
  · intro w1 w2 r g b hr hg hb hw1 hw2
    rw [hex_to_rgb]
    exact hexFromChars_canonical w1 w2 r g b hr hg hb hw1 hw2
  · intro s hs
    rw [hex_to_rgb]
    exact hexFromChars_short s.data hs

/-- Witness for C5 (amended) at concrete inputs. -/
theorem hex_to_rgb_tolerant_min5_witness :
    hex_to_rgb ⟨[' '] ++ (rgb_to_hex (1, 2, 3)).data ++ [' ']⟩ = some (1, 2, 3) ∧
    hex_to_rgb "AB" = none :=
  ⟨hex_to_rgb_tolerant_min5.1 [' '] [' '] 1 2 3 (by decide) (by decide) (by decide)
      (by decide) (by decide),
    hex_to_rgb_tolerant_min5.2 "AB" (by decide)⟩

/-- Counterexample to C5 as stated: `"ABCDE"` has only five hex digits after
stripping — fewer than six — yet `hex_to_rgb` parses it successfully (to
`(171, 205, 14)`) instead of failing. -/
theorem hex_to_rgb_five_digit_counterexample :
    "ABCDE".data.length = 5 ∧ (∀ c ∈ "ABCDE".data, (hexDigitVal c).isSome = true) ∧
    stripHashes (pyStrip "ABCDE".data) = "ABCDE".data ∧
    hex_to_rgb "ABCDE" = some (171, 205, 14) := by decide

/-! ### The sort-key preorders are total and transitive -/

theorem sortRel_total (mode : String) : ∀ a b, sortRel mode a b ∨ sortRel mode b a := by
  intro a b
  unfold sortRel sortLe
  split_ifs <;> simp only [decide_eq_true_eq] <;> first
    | exact le_total _ _
    | simp

theorem sortRel_trans (mode : String) :
    ∀ a b c, sortRel mode a b → sortRel mode b c → sortRel mode a c := by
  intro a b c
  unfold sortRel sortLe
  split_ifs <;> simp only [decide_eq_true_eq] <;> first
    | exact fun h1 h2 => le_trans h1 h2
    | simp

/-- C7: after `sort(mode, disabled_to_top=True)`, the result is a disabled
partition followed by an enabled partition; each partition is internally
sorted by the chosen key (for every mode string, the unknown-mode constant
key included), and within each partition the relative order of entries with
mutually tied keys is the relative order they had in the container. -/
theorem sort_disabled_to_top (mode : String) (p : Palette) :
    ∃ A B, (p.sort mode true).colors = A ++ B ∧
      (∀ a ∈ A, a.enabled = false) ∧ (∀ b ∈ B, b.enabled = true) ∧
      A.Pairwise (sortRel mode) ∧ B.Pairwise (sortRel mode) ∧
      (∀ q : ColorEntry → Bool, (∀ a b, q a = true → q b = true → sortRel mode a b) →
        A.filter q = (p.colors.filter (fun c => !c.enabled)).filter q ∧
        B.filter q = (p.colors.filter (fun c => c.enabled)).filter q) := by
  letI : IsTotal ColorEntry (sortRel mode) := ⟨sortRel_total mode⟩
  letI : IsTrans ColorEntry (sortRel mode) := ⟨sortRel_trans mode⟩
  refine ⟨(p.colors.filter (fun c => !c.enabled)).insertionSort (sortRel mode),
    (p.colors.filter (fun c => c.enabled)).insertionSort (sortRel mode),
    by simp [Palette.sort], ?_, ?_, ?_, ?_, ?_⟩
  · intro a ha
    have hm := (List.mem_insertionSort (sortRel mode)).mp ha
    have := (List.mem_filter.mp hm).2
    simpa using this
  · intro a ha
    have hm := (List.mem_insertionSort (sortRel mode)).mp ha
    exact (List.mem_filter.mp hm).2
  · exact List.sorted_insertionSort _ _
  · exact List.sorted_insertionSort _ _
  · intro q hq
    exact ⟨filter_insertionSort _ q hq _, filter_insertionSort _ q hq _⟩

/-! ### C3: the quantized builder -/

theorem nodup_bounded_length {l : List Nat} (hnd : l.Nodup) {n : Nat}
    (hlt : ∀ i ∈ l, i < n) : l.length ≤ n := by
  classical
  have hsub : l.toFinset ⊆ Finset.range n := by
    intro i hi
    rw [List.mem_toFinset] at hi
    exact Finset.mem_range.mpr (hlt i hi)
  have hcard := Finset.card_le_card hsub
  rw [List.toFinset_card_of_nodup hnd, Finset.card_range] at hcard
  exact hcard

theorem getcolorsP_length_le (pixels : List Nat) (n : Nat)
    (h : ∀ i ∈ pixels, i < n) : (getcolorsP pixels).length ≤ n := by
  simp only [getcolorsP]
  split_ifs with hbig
  · simp
  · rw [List.length_map]
    have hsorted : (pixels.insertionSort (· ≤ ·)).Pairwise (· ≤ ·) :=
      List.sorted_insertionSort _ _
    have hnd : ((countRuns (pixels.insertionSort (· ≤ ·))).map Prod.fst).Nodup :=
      countRuns_keys_nodup (fun a b h1 h2 => Nat.le_antisymm h1 h2) hsorted
    have hlt : ∀ i ∈ (countRuns (pixels.insertionSort (· ≤ ·))).map Prod.fst, i < n := by
      intro i hi
      have hm : i ∈ pixels.insertionSort (· ≤ ·) := mem_countRuns_fst.mp hi
      exact h i ((List.perm_insertionSort _ pixels).mem_iff.mp hm)
    calc (countRuns (pixels.insertionSort (· ≤ ·))).length
        = ((countRuns (pixels.insertionSort (· ≤ ·))).map Prod.fst).length :=
          (List.length_map _ _).symm
      _ ≤ n := nodup_bounded_length hnd hlt

theorem countDesc_iff (a b : ColorEntry) : countDesc a b ↔ b.count ≤ a.count := by
  unfold countDesc
  omega

/-- C3: for every quantizer obeying PIL's contract (`convert('P',
palette=ADAPTIVE, colors=n)` produces pixel indices below `n`) and every
`n > 0`, `from_image_quant` installs at most `n` entries, every count is
non-negative, and the entries are sorted by descending count. -/
theorem from_image_quant_bounds (quant : Quantizer) (rs : Resampler) (p : Palette)
    (img : Image) (n : Int) (max_dim : Nat)
    (hquant : ∀ px k, ∀ i ∈ (quant px k).pixels, i < k)
    (hn : 0 < n) :
    (Palette.from_image_quant quant rs p img n max_dim).colors.length ≤ n.toNat ∧
    (∀ e ∈ (Palette.from_image_quant quant rs p img n max_dim).colors, 0 ≤ e.count) ∧
    (Palette.from_image_quant quant rs p img n max_dim).colors.Pairwise
      (fun a b => b.count ≤ a.count) := by
  letI : IsTotal ColorEntry countDesc := ⟨fun a b => Int.le_total _ _⟩
  letI : IsTrans ColorEntry countDesc := ⟨fun a b c h1 h2 => le_trans (α := ℤ) h1 h2⟩
  simp only [Palette.from_image_quant]
  split_ifs with h1 h2
  · exact absurd h1 (by omega)
  · exact ⟨by simp, by simp, by simp⟩
  · refine ⟨?_, fun e _ => Nat.zero_le _, ?_⟩
    · rw [List.length_insertionSort, List.length_map]
      exact le_trans
        (getcolorsP_length_le _ _ (hquant (sampleRGB rs img max_dim) n.toNat))
        (le_refl _)
    · exact (List.sorted_insertionSort countDesc _).imp (fun h => (countDesc_iff _ _).mp h)

theorem quantW_contract : ∀ px k, ∀ i ∈ (quantW px k).pixels, i < k := by
  intro px k i hi
  unfold quantW at hi
  by_cases hk : k = 0
  · subst hk; simp at hi
  · rw [if_neg hk] at hi
    simp only [List.mem_map] at hi
    obtain ⟨a, -, ha⟩ := hi
    omega

/-- Witness for C3 at a concrete quantizer, image and `n = 2`. -/
theorem from_image_quant_bounds_witness :
    (0 : Int) < 2 ∧
    ((Palette.from_image_quant quantW rsId ⟨[]⟩ imgW 2 800).colors.length ≤ (2 : Int).toNat ∧
      (∀ e ∈ (Palette.from_image_quant quantW rsId ⟨[]⟩ imgW 2 800).colors, 0 ≤ e.count) ∧
      (Palette.from_image_quant quantW rsId ⟨[]⟩ imgW 2 800).colors.Pairwise
        (fun a b => b.count ≤ a.count)) :=
  ⟨by decide, from_image_quant_bounds quantW rsId ⟨[]⟩ imgW 2 800 quantW_contract (by decide)⟩

/-! ### C9: the estimator is pure -/

/-- C9: `estimate_unique_stats` leaves the palette container unchanged, and
its stats triple does not depend on the container state: with the same image
content and cap, every call returns the same triple. -/
theorem estimate_unique_stats_pure (rs : Resampler) (img : Image) (msd : Option Nat)
    (p p' : Palette) :
    (Palette.estimate_unique_stats rs p img msd).2 = p ∧
    (Palette.estimate_unique_stats rs p img msd).1 =
      (Palette.estimate_unique_stats rs p' img msd).1 := by
  constructor
  · simp only [Palette.estimate_unique_stats]
    split_ifs <;> rfl
  · simp only [Palette.estimate_unique_stats]
    split_ifs <;> rfl

/-! ### C10: a fully transparent downsample short-circuits the maximal builder -/

/-- C10: when the image has opaque pixels but is large enough to be
downsampled and the downsample has no opaque pixel, `from_image_max`
installs the empty palette and returns without error — it neither scans the
full image nor raises `TooManyColors`, even when `max_unique_error` is
supplied. -/
theorem from_image_max_empty_sample (rs : Resampler) (p : Palette) (img : Image)
    (force : Bool) (msd fspl ut : Option Nat) (urt : Option ℚ) (m : Option Nat)
    (h1 : totalOpaque img ≠ 0)
    (h2 : max img.w img.h > msd.getD MAX_SAMPLE_DIM)
    (h3 : opaqueRGB (rs (sampleSize img.w img.h (msd.getD MAX_SAMPLE_DIM)).1
        (sampleSize img.w img.h (msd.getD MAX_SAMPLE_DIM)).2 img) = []) :
    Palette.from_image_max rs p img force msd fspl ut urt m = (⟨[]⟩, none) := by
  have hs : sampleRGB rs img (msd.getD MAX_SAMPLE_DIM) = [] := by
    unfold sampleRGB
    rw [if_pos h2]
    exact h3
  simp only [Palette.from_image_max]
  rw [if_neg h1, hs]
  simp

/-- Witness for C10: opaque image, cap 1 (so the builder downsamples), blank
downsample, `max_unique_error` supplied. -/
theorem from_image_max_empty_sample_witness :
    totalOpaque imgTwoRed ≠ 0 ∧
    max imgTwoRed.w imgTwoRed.h > (some 1 : Option Nat).getD MAX_SAMPLE_DIM ∧
    Palette.from_image_max rsBlank ⟨[]⟩ imgTwoRed false (some 1) none none none (some 1) =
      (⟨[]⟩, none) :=
  ⟨by decide, by decide,
    from_image_max_empty_sample rsBlank ⟨[]⟩ imgTwoRed false (some 1) none none none (some 1)
      (by decide) (by decide) (by decide)⟩

/-! ### C6: fully transparent images -/

theorem opaqueRGB_eq_nil_of_transparent {img : Image}
    (himg : ∀ px ∈ img.data, px.a = 0) : opaqueRGB img = [] := by
  unfold opaqueRGB
  have hfil : img.data.filter (fun px => 0 < px.a) = [] := by
    rw [List.filter_eq_nil_iff]
    intro px hpx
    simp [himg px hpx]
  rw [hfil]
  rfl

/-- C6: on an image where every pixel has alpha 0, both builders install the
empty palette without error and the estimator returns `(0, 0, 0)`. -/
theorem all_transparent_builders (quant : Quantizer) (rs : Resampler) (img : Image)
    (hrs : PreservesTransparent rs) (himg : ∀ px ∈ img.data, px.a = 0)
    (n : Int) (max_dim : Nat) (force : Bool) (msd fspl ut : Option Nat) (urt : Option ℚ)
    (m : Option Nat) (msd2 : Option Nat) (p p2 p3 : Palette) :
    (Palette.from_image_quant quant rs p img n max_dim).colors = [] ∧
    (Palette.from_image_max rs p2 img force msd fspl ut urt m).1.colors = [] ∧
    (Palette.from_image_max rs p2 img force msd fspl ut urt m).2 = none ∧
    (Palette.estimate_unique_stats rs p3 img msd2).1 = (0, 0, 0) := by
  have hop : opaqueRGB img = [] := opaqueRGB_eq_nil_of_transparent himg
  have htot : totalOpaque img = 0 := by unfold totalOpaque; rw [hop]; rfl
  have hsample : ∀ d, sampleRGB rs img d = [] := by
    intro d
    unfold sampleRGB
    split_ifs with hbig
    · exact opaqueRGB_eq_nil_of_transparent (hrs _ _ img himg)
    · exact hop
  have hmax : Palette.from_image_max rs p2 img force msd fspl ut urt m = (⟨[]⟩, none) := by
    simp only [Palette.from_image_max]
    rw [if_pos htot]
  have hquant : (Palette.from_image_quant quant rs p img n max_dim).colors = [] := by
    simp only [Palette.from_image_quant]
    split_ifs with h1 h2
    · rfl
    · rfl
    · exact absurd (hsample max_dim) h2
  refine ⟨hquant, by rw [hmax], by rw [hmax], ?_⟩
  simp only [Palette.estimate_unique_stats]
  rw [if_pos htot]

theorem rsBlank_preserves : PreservesTransparent rsBlank := by
  intro w h img _ px hpx
  unfold rsBlank at hpx
  simp at hpx
  rw [hpx]

theorem imgClear_transparent : ∀ px ∈ imgClear.data, px.a = 0 := by
  intro px hpx
  unfold imgClear at hpx
  simp at hpx
  rw [hpx]

/-- Witness for C6 at a concrete transparent image. -/
theorem all_transparent_builders_witness :
    (Palette.from_image_quant quantW rsBlank ⟨[]⟩ imgClear 3 800).colors = [] ∧
    (Palette.from_image_max rsBlank ⟨[]⟩ imgClear false none none none none none).1.colors = [] ∧
    (Palette.from_image_max rsBlank ⟨[]⟩ imgClear false none none none none none).2 = none ∧
    (Palette.estimate_unique_stats rsBlank ⟨[]⟩ imgClear none).1 = (0, 0, 0) :=
  all_transparent_builders quantW rsBlank imgClear rsBlank_preserves imgClear_transparent
    3 800 false none none none none none none ⟨[]⟩ ⟨[]⟩ ⟨[]⟩

/-! ### C8: the hex field is always in sync with rgb -/

theorem paletteWf_insertionSort {l : List ColorEntry} (r : ColorEntry → ColorEntry → Prop)
    [DecidableRel r] (h : ∀ e ∈ l, EntryWf e) : ∀ e ∈ l.insertionSort r, EntryWf e :=
  fun e he => h e ((List.mem_insertionSort r).mp he)

/-- C8: every container operation leaves every entry with
`hex = rgb_to_hex rgb`: the builders construct entries that way, and the
container operations never desynchronise an entry. -/
theorem operations_preserve_hex_sync (quant : Quantizer) (rs : Resampler)
    (img : Image) (n : Int) (max_dim : Nat) (force : Bool)
    (msd fspl ut : Option Nat) (urt : Option ℚ) (m : Option Nat)
    (mode : String) (dtt : Bool) (i j : Int) (rgb : RGB) (p : Palette)
    (hp : PaletteWf p) :
    PaletteWf (Palette.from_image_quant quant rs p img n max_dim) ∧
    PaletteWf (Palette.from_image_max rs p img force msd fspl ut urt m).1 ∧
    PaletteWf (p.sort mode dtt) ∧
    PaletteWf (p.toggle_enabled i) ∧
    PaletteWf (p.add_color rgb) ∧
    PaletteWf (p.remove_color j) := by
  refine ⟨?_, ?_, ?_, ?_, ?_, ?_⟩
  · -- from_image_quant
    simp only [Palette.from_image_quant]
    split_ifs with h1 h2
    · intro e he; simp at he
    · intro e he; simp at he
    · intro e he
      have hm := (List.mem_insertionSort countDesc).mp he
      obtain ⟨ci, -, hci⟩ := List.mem_map.mp hm
      rw [← hci]
      rfl
  · -- from_image_max
    simp only [Palette.from_image_max]
    split_ifs with h1 h2 h3
    · intro e he; simp at he
    · intro e he; simp at he
    · -- full-scan branch, with or without the cap
      split
      · -- cap supplied
        split_ifs with hbig
        · exact hp
        · intro e he
          have hm := (List.mem_insertionSort countDesc).mp he
          obtain ⟨vc, -, hvc⟩ := List.mem_map.mp hm
          rw [← hvc]
          rfl
      · -- no cap
        intro e he
        have hm := (List.mem_insertionSort countDesc).mp he
        obtain ⟨vc, -, hvc⟩ := List.mem_map.mp hm
        rw [← hvc]
        rfl
    · -- sample fallback branch
      intro e he
      have hm := (List.mem_insertionSort countDesc).mp he
      obtain ⟨vc, -, hvc⟩ := List.mem_map.mp hm
      rw [← hvc]
      rfl
  · -- sort
    simp only [Palette.sort]
    split_ifs with hdtt
    · intro e he
      rcases List.mem_append.mp he with h | h
      · exact hp e (List.mem_filter.mp ((List.mem_insertionSort _).mp h)).1
      · exact hp e (List.mem_filter.mp ((List.mem_insertionSort _).mp h)).1
    · intro e he
      exact hp e ((List.mem_insertionSort _).mp he)
  · -- toggle_enabled
    simp only [Palette.toggle_enabled]
    split_ifs with hb
    · cases hg : p.colors.get? i.toNat with
      | none => simpa [hg] using hp
      | some e0 =>
        simp only [hg]
        intro e he
        rcases List.mem_or_eq_of_mem_set he with h | h
        · exact hp e h
        · rw [h]
          exact hp e0 (List.get?_mem hg)
    · exact hp
  · -- add_color
    intro e he
    simp only [Palette.add_color] at he
    rcases List.mem_append.mp he with h | h
    · exact hp e h
    · simp at h
      rw [h]
      rfl
  · -- remove_color
    simp only [Palette.remove_color]
    split_ifs with hb
    · intro e he
      exact hp e (List.mem_of_mem_eraseIdx he)
    · exact hp

/-- Witness for C8: the operations applied to a small well-formed container. -/
theorem operations_preserve_hex_sync_witness :
    PaletteWf (Palette.from_image_quant quantW rsId ⟨[]⟩ imgW 2 800) ∧
    PaletteWf (Palette.from_image_max rsId ⟨[]⟩ imgW false none none none none none).1 ∧
    PaletteWf ((⟨[]⟩ : Palette).sort "hex" true) ∧
    PaletteWf ((⟨[]⟩ : Palette).toggle_enabled 0) ∧
    PaletteWf ((⟨[]⟩ : Palette).add_color (1, 2, 3)) ∧
    PaletteWf ((⟨[]⟩ : Palette).remove_color 0) :=
  operations_preserve_hex_sync quantW rsId imgW 2 800 false none none none none none
    "hex" true 0 0 (1, 2, 3) ⟨[]⟩ (by intro e he; simp at he)

/-! ### C1: when the maximal builder raises `TooManyColors` -/

/-- C1 (amended): `from_image_max` raises `TooManyColors` exactly when the
exact full-scan path is reached (some opaque pixel exists, the sample is
non-empty, and the full-scan gate is on) while a cap `m` is supplied and the
exact full-resolution distinct-color count exceeds it.  The sample-fallback
path never raises, whatever the exact count.  On failure the palette
container is returned unchanged. -/
theorem from_image_max_error_iff (rs : Resampler) (p : Palette) (img : Image)
    (force : Bool) (msd fspl ut : Option Nat) (urt : Option ℚ) (m : Option Nat) :
    ((Palette.from_image_max rs p img force msd fspl ut urt m).2 ≠ none ↔
      (totalOpaque img ≠ 0 ∧
        sampleRGB rs img (msd.getD MAX_SAMPLE_DIM) ≠ [] ∧
        maxGate force (sampleRGB rs img (msd.getD MAX_SAMPLE_DIM)) (totalOpaque img)
          (ut.getD UNIQUE_THRESHOLD) (fspl.getD FULL_SCAN_PIXEL_LIMIT)
          (urt.getD UNIQUE_RATIO_THRESHOLD) ∧
        ∃ cap, m = some cap ∧ cap < distinctColorCount img)) ∧
    ((Palette.from_image_max rs p img force msd fspl ut urt m).2 ≠ none →
      (Palette.from_image_max rs p img force msd fspl ut urt m).1 = p) := by
  simp only [Palette.from_image_max]
  split_ifs with h1 h2 h3
  · -- no opaque pixels: early empty palette, no error
    refine ⟨⟨fun hcon => absurd rfl hcon, fun hrhs => absurd h1 hrhs.1⟩,
      fun hcon => absurd rfl hcon⟩
  · -- empty sample: early empty palette, no error
    refine ⟨⟨fun hcon => absurd rfl hcon, fun hrhs => absurd h2 hrhs.2.1⟩,
      fun hcon => absurd rfl hcon⟩
  · -- gate on: the full-scan path
    split
    · -- a cap is supplied
      rename_i cap
      split_ifs with hbig
      · -- count exceeds the cap: the raise
        refine ⟨⟨fun _ => ⟨h1, h2, h3, cap, rfl, ?_⟩, fun _ => ?_⟩, fun _ => rfl⟩
        · rw [← distinctColorCount_eq]
          exact hbig
        · exact fun hc => Option.noConfusion hc
      · -- count within the cap: install, no error
        refine ⟨⟨fun hcon => absurd rfl hcon, ?_⟩, fun hcon => absurd rfl hcon⟩
        rintro ⟨-, -, -, c, hc, hlt⟩
        injection hc with hc'
        rw [← distinctColorCount_eq, ← hc'] at hlt
        exact absurd hlt hbig
    · -- no cap supplied: install, no error
      refine ⟨⟨fun hcon => absurd rfl hcon, ?_⟩, fun hcon => absurd rfl hcon⟩
      rintro ⟨-, -, -, c, hc, -⟩
      exact Option.noConfusion hc
  · -- gate off: the sample fallback, which never raises
    refine ⟨⟨fun hcon => absurd rfl hcon, fun hrhs => absurd hrhs.2.2.1 h3⟩,
      fun hcon => absurd rfl hcon⟩

/-- Counterexample to C1 as stated: on the 2×1 red/green image with the
thresholds configured to `unique_threshold = 0` and
`unique_ratio_threshold = 0` (they are runtime parameters of the call), the
full-scan gate is off and the builder takes the sample fallback.  The exact
full-resolution distinct-color count (2) exceeds the supplied cap `m = 1`,
yet the call raises nothing and installs the 2-entry approximate palette —
the "fails if and only if the exact count exceeds `m`" biconditional fails.
(The same divergence arises with all-default thresholds on any image whose
sample has more than `UNIQUE_THRESHOLD` unique colors at a unique ratio
above `UNIQUE_RATIO_THRESHOLD`, e.g. 2050 distinct colors in 2050 pixels;
the small configured instance keeps the evaluation concrete.) -/
theorem from_image_max_error_iff_counterexample :
    1 < distinctColorCount imgW ∧
    (Palette.from_image_max rsId ⟨[]⟩ imgW false none none (some 0) (some 0)
      (some 1)).2 = none ∧
    (Palette.from_image_max rsId ⟨[]⟩ imgW false none none (some 0) (some 0)
      (some 1)).1.colors.length = 2 := by
  refine ⟨?_, ?_, ?_⟩
  · rw [← distinctColorCount_eq]
    decide
  · decide
  · decide

/-! ### The exact full-scan result, and C2 on the no-downsample fragment -/

theorem fullScanEntries_length (img : Image) :
    (fullScanEntries img).length = distinctColorCount img := by
  unfold fullScanEntries
  rw [List.length_insertionSort, List.length_map, distinctColorCount_eq]

theorem fullScanEntries_sum (img : Image) :
    ((fullScanEntries img).map (fun e => e.count)).sum = totalOpaque img := by
  unfold fullScanEntries
  have hperm := (List.perm_insertionSort countDesc
    ((uniqueCounts (opaqueRGB img)).map mkMaxEntry)).map (fun e => e.count)
  rw [hperm.sum_eq, List.map_map]
  exact uniqueCounts_sum _

theorem fullScanEntries_sorted (img : Image) :
    (fullScanEntries img).Pairwise (fun a b => b.count ≤ a.count) :=
  (List.sorted_insertionSort countDesc _).imp (fun h => (countDesc_iff _ _).mp h)

/-- The C2 property on the fragment where the builder does not downsample:
for an image whose larger dimension is within `MAX_SAMPLE_DIM`, with
`k = distinctColorCount img ≤ UNIQUE_THRESHOLD` distinct opaque colors and
`totalOpaque img < FULL_SCAN_PIXEL_LIMIT` opaque pixels, `from_image_max`
with default arguments raises nothing and installs the exact full-scan
palette: exactly `k` entries whose counts sum to `totalOpaque img`, sorted
by descending count.  (For larger images the sample statistics that gate
the full scan come from PIL's floating-point LANCZOS downsample, which the
embedding cannot settle.) -/
theorem from_image_max_small_image_exact (rs : Resampler) (p : Palette) (img : Image)
    (h1 : max img.w img.h ≤ MAX_SAMPLE_DIM)
    (h2 : distinctColorCount img ≤ UNIQUE_THRESHOLD)
    (h3 : totalOpaque img < FULL_SCAN_PIXEL_LIMIT) :
    (Palette.from_image_max rs p img false none none none none none).2 = none ∧
    (Palette.from_image_max rs p img false none none none none none).1.colors =
      fullScanEntries img ∧
    (Palette.from_image_max rs p img false none none none none none).1.colors.length =
      distinctColorCount img ∧
    ((Palette.from_image_max rs p img false none none none none none).1.colors.map
      (fun e => e.count)).sum = totalOpaque img ∧
    (Palette.from_image_max rs p img false none none none none none).1.colors.Pairwise
      (fun a b => b.count ≤ a.count) := by
  by_cases htot : totalOpaque img = 0
  · have hop : opaqueRGB img = [] := List.length_eq_zero.mp htot
    have hfse : fullScanEntries img = [] := by
      unfold fullScanEntries
      rw [hop]
      rfl
    have hres : Palette.from_image_max rs p img false none none none none none =
        (⟨[]⟩, none) := by
      simp only [Palette.from_image_max]
      rw [if_pos htot]
    rw [hres]
    refine ⟨rfl, by rw [hfse], ?_, ?_, by simp⟩
    · show (0 : Nat) = distinctColorCount img
      unfold distinctColorCount
      rw [hop]
      rfl
    · show (0 : Nat) = totalOpaque img
      omega
  · have hsample : sampleRGB rs img MAX_SAMPLE_DIM = opaqueRGB img := by
      unfold sampleRGB
      rw [if_neg (by omega)]
    have hne : sampleRGB rs img MAX_SAMPLE_DIM ≠ [] := by
      rw [hsample]
      intro hc
      apply htot
      unfold totalOpaque
      rw [hc]
      rfl
    have hgate : maxGate false (sampleRGB rs img MAX_SAMPLE_DIM) (totalOpaque img)
        UNIQUE_THRESHOLD FULL_SCAN_PIXEL_LIMIT UNIQUE_RATIO_THRESHOLD := by
      right
      refine ⟨Or.inl ?_, by omega⟩
      rw [hsample, distinctColorCount_eq]
      exact h2
    have hres : Palette.from_image_max rs p img false none none none none none =
        (⟨fullScanEntries img⟩, none) := by
      simp only [Palette.from_image_max, Option.getD_none]
      rw [if_neg htot, if_neg hne, if_pos hgate]
    rw [hres]
    exact ⟨rfl, rfl, fullScanEntries_length img, fullScanEntries_sum img,
      fullScanEntries_sorted img⟩
